import Mathlib

/-
Shallow embedding of `packages/viewer/src/qualitative/store.ts`
(the in-memory qualitative-coding store of the embedding-atlas viewer).

Modelling conventions:
  * JavaScript `Record<string, V>` objects are modelled as association
    lists `List (String × V)` preserving key insertion order; reading is
    first-match lookup (`aget`), writing (`aset`) replaces the value in
    place when the key is present and appends the pair otherwise, which
    is the behaviour of the `{ ...current, [codeId]: v }` spread used by
    the source.
  * `RowID` is an opaque stringifiable value; it is modelled as `String`
    (so the `String(rowId)` coercions in the source are the identity).
  * `Date` values are modelled as abstract `Nat` timestamps supplied by
    the caller (`now` parameters); nothing in the store inspects them.
  * `createId` is backed by `crypto.randomUUID()` and hence
    nondeterministic; freshly generated identifiers are passed to the
    mutators as explicit `newId` arguments.
  * JavaScript `Set` iteration keeps first-insertion order: `new Set(xs)`
    is `dedupFirst xs`, `Set.add` is `setInsert`, `Set.delete` is
    `setDelete`.
  * TypeScript string-literal union types (memo types, relation types,
    actor roles, ...) are carried as plain `String`s; the store never
    branches on them.  The optional numeric `strength` field is inert
    data and is carried as `Option Int`.
-/

namespace QualStore

/-- First-match lookup in an association list, i.e. `record[k]` returning
`undefined` as `none`. -/
def aget {α : Type} : List (String × α) → String → Option α
  | [], _ => none
  | p :: rest, k => if p.1 = k then some p.2 else aget rest k

/-- The record update `{ ...m, [k]: v }`: if `k` is already a key its value
is replaced in place, otherwise the pair `(k, v)` is appended at the end. -/
def aset {α : Type} (m : List (String × α)) (k : String) (v : α) : List (String × α) :=
  if m.any (fun p => p.1 == k) then m.map (fun p => if p.1 = k then (k, v) else p)
  else m ++ [(k, v)]

/-- Adding one element to a JavaScript `Set` materialised as an ordered
duplicate-free list: appended at the end when not yet present. -/
def setInsert (l : List String) (x : String) : List String :=
  if x ∈ l then l else l ++ [x]

/-- Removing one element from a JavaScript `Set` materialised as a list. -/
def setDelete (l : List String) (x : String) : List String :=
  l.filter (fun y => y != x)

/-- The list produced by `Array.from(new Set(l))`: duplicates dropped,
first occurrences kept in order. -/
def dedupFirst (l : List String) : List String :=
  l.foldl setInsert []

/-- `CodingEvent.action`, the union `"apply" | "remove" | "create" | "merge" | "split"`. -/
inductive EventAction : Type
  | apply
  | remove
  | create
  | merge
  | split
deriving DecidableEq, Repr

/-- The `Code` entity (`CodeLevel` is advisory and carried as `Nat`;
`frequency` is a stored field that derived reads overwrite). -/
structure Code : Type where
  id : String
  name : String
  description : String
  color : String
  parentId : Option String
  level : Nat
  createdAt : Nat
  createdBy : Option String
  frequency : Nat
  antActorType : Option String
deriving DecidableEq, Repr

/-- The `Memo` entity. -/
structure Memo : Type where
  id : String
  content : String
  linkedCodes : List String
  linkedDataPoints : List String
  memoType : String
  createdAt : Nat
  tags : List String
deriving DecidableEq, Repr

/-- The `CodeRelation` entity. -/
structure CodeRelation : Type where
  id : String
  fromCode : String
  toCode : String
  relationType : String
  strength : Option Int
  notes : Option String
deriving DecidableEq, Repr

/-- The `CodingEvent` audit-log entry. -/
structure CodingEvent : Type where
  timestamp : Nat
  action : EventAction
  codeId : String
  dataPointIds : List String
  coder : Option String
  notes : Option String
deriving DecidableEq, Repr

/-- The `Actor` entity. -/
structure Actor : Type where
  id : String
  name : String
  actorType : String
  role : String
  description : Option String
deriving DecidableEq, Repr

/-- The `ActorLink` entity. -/
structure ActorLink : Type where
  id : String
  fromActor : String
  toActor : String
  translationType : String
  dataPointIds : List String
  notes : Option String
deriving DecidableEq, Repr

/-- The `TemporalCode` entity (registered in the store but never mutated
by any exposed operation). -/
structure TemporalCode : Type where
  id : String
  codeId : String
  startTime : Nat
  endTime : Nat
  videoId : String
deriving DecidableEq, Repr

/-- The writable state of `createQualitativeStore()`: the six entity
registries, the assignment table and the audit log. -/
structure StoreState : Type where
  codes : List Code
  memos : List Memo
  relations : List CodeRelation
  actors : List Actor
  actorLinks : List ActorLink
  temporalCodes : List TemporalCode
  assignments : List (String × List String)
  codingEvents : List CodingEvent
deriving DecidableEq, Repr

/-- The empty store produced by `createQualitativeStore()`. -/
def emptyStore : StoreState :=
  { codes := [], memos := [], relations := [], actors := [], actorLinks := [],
    temporalCodes := [], assignments := [], codingEvents := [] }

/-- One step of the `assignmentsByRow` inversion loop: record that row
`rowId` carries code `codeId` (`result[key] = result[key] ?? []; if
(!result[key].includes(codeId)) result[key].push(codeId)`). -/
def abrStep (result : List (String × List String)) (codeId rowId : String) :
    List (String × List String) :=
  match aget result rowId with
  | none => aset result rowId [codeId]
  | some cs => if codeId ∈ cs then result else aset result rowId (cs ++ [codeId])

/-- The derived `assignmentsByRow` value: the assignment table inverted
into a map from (stringified) row id to the ordered duplicate-free list of
code ids assigned to that row. -/
def assignmentsByRow (asg : List (String × List String)) : List (String × List String) :=
  asg.foldl (fun result p => p.2.foldl (fun res rowId => abrStep res p.1 rowId) result) []

/-- The derived `codesWithFrequency` value: every registered code with its
`frequency` field overwritten by `($assignments[code.id] ?? []).length`. -/
def codesWithFrequency (codes : List Code) (asg : List (String × List String)) : List Code :=
  codes.map (fun code => { code with frequency := ((aget asg code.id).getD []).length })

/-- Read of the co-occurrence matrix with the `?? 0` defaults applied:
`matrix[a]?.[b] ?? 0`. -/
def mGet (m : List (String × List (String × Nat))) (a b : String) : Nat :=
  ((aget ((aget m a).getD []) b)).getD 0

/-- The statement `matrix[a] = matrix[a] ?? {}`: creates an empty row for
`a` when absent, otherwise leaves the matrix unchanged. -/
def ensureRow (m : List (String × List (String × Nat))) (a : String) :
    List (String × List (String × Nat)) :=
  match aget m a with
  | some _ => m
  | none => aset m a []

/-- The statement `matrix[a][b] = (matrix[a][b] ?? 0) + 1`. -/
def incCell (m : List (String × List (String × Nat))) (a b : String) :
    List (String × List (String × Nat)) :=
  let row := (aget m a).getD []
  aset m a (aset row b ((aget row b).getD 0 + 1))

/-- The body of the inner double loop of `cooccurrence` for one pair
`(a, b) = (codesForRow[i], codesForRow[j])`, `i < j`. -/
def bumpPair (m : List (String × List (String × Nat))) (a b : String) :
    List (String × List (String × Nat)) :=
  incCell (incCell (ensureRow (ensureRow m a) b) a b) b a

/-- The double loop of `cooccurrence` over one row's code list: every pair
`(codesForRow[i], codesForRow[j])` with `i < j`, in loop order. -/
def coRow (m : List (String × List (String × Nat))) :
    List String → List (String × List (String × Nat))
  | [] => m
  | a :: rest => coRow (rest.foldl (fun acc b => bumpPair acc a b) m) rest

/-- The derived `cooccurrence` value, recomputed from `assignmentsByRow`. -/
def cooccurrence (abr : List (String × List String)) :
    List (String × List (String × Nat)) :=
  abr.foldl (fun m p => coRow m p.2) []

/-- The derived `saturation` value. -/
structure Saturation : Type where
  totalCodes : Nat
  recentNewCodes : Nat
  trend : String
deriving DecidableEq, Repr

/-- The derived `saturation` computation: `events.slice(-50)` is
`drop (length - 50)`, then `create`-type events are counted. -/
def saturation (codes : List Code) (events : List CodingEvent) : Saturation :=
  let recentEvents := events.drop (events.length - 50)
  let recentNewCodes := (recentEvents.filter (fun e => e.action == EventAction.create)).length
  { totalCodes := codes.length
    recentNewCodes := recentNewCodes
    trend := if recentNewCodes ≤ 2 then "Approaching saturation" else "Exploring" }

/-- The defaulted part of `createCode`'s `Partial<Code>` argument. -/
structure CodeDraft : Type where
  name : Option String
  description : Option String
  color : Option String
  parentId : Option String
  level : Option Nat
  createdBy : Option String
  antActorType : Option String
deriving DecidableEq, Repr

/-- An entirely empty `Partial<Code>`. -/
def emptyDraft : CodeDraft :=
  { name := none, description := none, color := none, parentId := none,
    level := none, createdBy := none, antActorType := none }

/-- The colour palette of `toColor`. -/
def palette : List String :=
  ["#2563eb", "#16a34a", "#f97316", "#ef4444", "#8b5cf6", "#14b8a6", "#facc15", "#ec4899"]

/-- `toColor(index) = palette[index % palette.length]`. -/
def toColor (index : Nat) : String :=
  palette.get ⟨index % palette.length, Nat.mod_lt index (by decide)⟩

/-- `logEvent`: append one event, stamped now, to the audit log. -/
def logEvent (events : List CodingEvent) (now : Nat) (action : EventAction)
    (codeId : String) (dataPointIds : List String) : List CodingEvent :=
  events ++ [{ timestamp := now, action := action, codeId := codeId,
               dataPointIds := dataPointIds, coder := none, notes := none }]

/-- `createCode(partial)`: fill defaults, append to the code registry, log
a `create` event with no data points, and return the new code. -/
def createCode (s : StoreState) (now : Nat) (newId : String) (d : CodeDraft) :
    Code × StoreState :=
  let code : Code :=
    { id := newId
      name := d.name.getD "New Code"
      description := d.description.getD ""
      color := d.color.getD (toColor s.codes.length)
      parentId := d.parentId
      level := d.level.getD 1
      createdAt := now
      createdBy := d.createdBy
      frequency := 0
      antActorType := d.antActorType }
  (code, { s with codes := s.codes ++ [code]
                  codingEvents := logEvent s.codingEvents now EventAction.create code.id [] })

/-- `applyCode(codeId, rowIds)`: no-op on empty input, otherwise union the
rows into the code's assignment set and log an `apply` event. -/
def applyCode (s : StoreState) (now : Nat) (codeId : String) (rowIds : List String) :
    StoreState :=
  if rowIds.length = 0 then s
  else
    let existing := dedupFirst ((aget s.assignments codeId).getD [])
    let updated := rowIds.foldl setInsert existing
    { s with assignments := aset s.assignments codeId updated
             codingEvents := logEvent s.codingEvents now EventAction.apply codeId rowIds }

/-- `removeCode(codeId, rowIds)`: no-op on empty input, otherwise delete
the rows from the code's assignment set and log a `remove` event. -/
def removeCode (s : StoreState) (now : Nat) (codeId : String) (rowIds : List String) :
    StoreState :=
  if rowIds.length = 0 then s
  else
    let existing := dedupFirst ((aget s.assignments codeId).getD [])
    let updated := rowIds.foldl setDelete existing
    { s with assignments := aset s.assignments codeId updated
             codingEvents := logEvent s.codingEvents now EventAction.remove codeId rowIds }

/-- `createMemo`'s argument `Omit<Memo, "id" | "createdAt">`. -/
structure MemoDraft : Type where
  content : String
  linkedCodes : List String
  linkedDataPoints : List String
  memoType : String
  tags : List String
deriving DecidableEq, Repr

/-- `createMemo(memo)`: assign id and timestamp and prepend to the memo
registry; the audit log is not written. -/
def createMemo (s : StoreState) (now : Nat) (newId : String) (d : MemoDraft) :
    Memo × StoreState :=
  let newMemo : Memo :=
    { id := newId, content := d.content, linkedCodes := d.linkedCodes,
      linkedDataPoints := d.linkedDataPoints, memoType := d.memoType,
      createdAt := now, tags := d.tags }
  (newMemo, { s with memos := newMemo :: s.memos })

/-- `createRelation`'s argument `Omit<CodeRelation, "id">`. -/
structure RelationDraft : Type where
  fromCode : String
  toCode : String
  relationType : String
  strength : Option Int
  notes : Option String
deriving DecidableEq, Repr

/-- `createRelation(relation)`: assign an id and append to the relation
registry; no validation, no audit logging. -/
def createRelation (s : StoreState) (newId : String) (d : RelationDraft) :
    CodeRelation × StoreState :=
  let r : CodeRelation :=
    { id := newId, fromCode := d.fromCode, toCode := d.toCode,
      relationType := d.relationType, strength := d.strength, notes := d.notes }
  (r, { s with relations := s.relations ++ [r] })

/-- `addActor`'s argument `Omit<Actor, "id">`. -/
structure ActorDraft : Type where
  name : String
  actorType : String
  role : String
  description : Option String
deriving DecidableEq, Repr

/-- `addActor(actor)`: assign an id and append to the actor registry. -/
def addActor (s : StoreState) (newId : String) (d : ActorDraft) : Actor × StoreState :=
  let a : Actor :=
    { id := newId, name := d.name, actorType := d.actorType, role := d.role,
      description := d.description }
  (a, { s with actors := s.actors ++ [a] })

/-- `addActorLink`'s argument `Omit<ActorLink, "id">`. -/
structure ActorLinkDraft : Type where
  fromActor : String
  toActor : String
  translationType : String
  dataPointIds : List String
  notes : Option String
deriving DecidableEq, Repr

/-- `addActorLink(link)`: assign an id and append to the actor-link
registry. -/
def addActorLink (s : StoreState) (newId : String) (d : ActorLinkDraft) :
    ActorLink × StoreState :=
  let l : ActorLink :=
    { id := newId, fromActor := d.fromActor, toActor := d.toActor,
      translationType := d.translationType, dataPointIds := d.dataPointIds,
      notes := d.notes }
  (l, { s with actorLinks := s.actorLinks ++ [l] })

/-- One `<Code .../>` element of the export. -/
def codeXmlOf (c : Code) : String :=
  "<Code id=\"" ++ c.id ++ "\" name=\"" ++ c.name ++ "\" color=\"" ++ c.color ++
    "\" level=\"" ++ toString c.level ++ "\" parentId=\"" ++ c.parentId.getD "" ++
    "\"></Code>"

/-- One `<Memo ...>...</Memo>` element of the export.  `Date` values are
abstract timestamps, so `toISOString()` is rendered as the decimal
timestamp; no claim depends on the concrete date format. -/
def memoXmlOf (m : Memo) : String :=
  "<Memo id=\"" ++ m.id ++ "\" type=\"" ++ m.memoType ++ "\" createdAt=\"" ++
    toString m.createdAt ++ "\"><Content>" ++ m.content ++ "</Content></Memo>"

/-- One `<Coding .../>` element of the export. -/
def codingXmlOf (codeId rowId : String) : String :=
  "<Coding codeId=\"" ++ codeId ++ "\" dataPointId=\"" ++ rowId ++ "\"></Coding>"

/-- `exportRefiQda()`: the XML declaration followed by a `<Project>` root
holding all code, memo and coding elements, in registry/table order. -/
def exportRefiQda (s : StoreState) : String :=
  let codeXml := String.join (s.codes.map codeXmlOf)
  let memoXml := String.join (s.memos.map memoXmlOf)
  let codingXml :=
    String.join ((s.assignments.map (fun p => String.join (p.2.map (codingXmlOf p.1)))))
  "<?xml version=\"1.0\" encoding=\"UTF-8\"?><Project>" ++ codeXml ++ memoXml ++
    codingXml ++ "</Project>"

theorem aget_append {α : Type} (l1 l2 : List (String × α)) (k : String) :
    aget (l1 ++ l2) k = (aget l1 k).or (aget l2 k) := by
  induction l1 with
  | nil => simp [aget]
  | cons p rest ih => by_cases hp : p.1 = k <;> simp [aget, hp, ih]

theorem aget_eq_none_iff {α : Type} (m : List (String × α)) (k : String) :
    aget m k = none ↔ m.any (fun p => p.1 == k) = false := by
  induction m with
  | nil => simp [aget]
  | cons p rest ih => by_cases hp : p.1 = k <;> simp [aget, hp, ih]

theorem aget_map_update_self {α : Type} (m : List (String × α)) (k : String) (v : α)
    (h : m.any (fun p => p.1 == k) = true) :
    aget (m.map (fun p => if p.1 = k then (k, v) else p)) k = some v := by
  induction m with
  | nil => simp at h
  | cons p rest ih =>
    by_cases hp : p.1 = k
    · simp [aget, hp]
    · simp only [List.any_cons, Bool.or_eq_true, beq_iff_eq, hp, false_or] at h
      simp [aget, hp, ih h]

theorem aget_map_update_of_ne {α : Type} (m : List (String × α)) (k q : String) (v : α)
    (h : q ≠ k) :
    aget (m.map (fun p => if p.1 = k then (k, v) else p)) q = aget m q := by
  induction m with
  | nil => rfl
  | cons p rest ih =>
    by_cases hp : p.1 = k
    · have hk : ¬ k = q := fun hh => h hh.symm
      have hpq : ¬ p.1 = q := by rw [hp]; exact hk
      simp [aget, hp, hk, hpq, ih]
    · have hid : (if p.1 = k then (k, v) else p) = p := by simp [hp]
      simp [aget, hid, ih]

theorem aget_aset_self {α : Type} (m : List (String × α)) (k : String) (v : α) :
    aget (aset m k v) k = some v := by
  by_cases hm : m.any (fun p => p.1 == k) = true
  · simp only [aset, hm, if_true]
    exact aget_map_update_self m k v hm
  · simp only [Bool.not_eq_true] at hm
    have hnone : aget m k = none := (aget_eq_none_iff m k).mpr hm
    simp [aset, hm, aget_append, hnone, aget]

theorem aget_aset_of_ne {α : Type} (m : List (String × α)) (k q : String) (v : α)
    (h : q ≠ k) : aget (aset m k v) q = aget m q := by
  by_cases hm : m.any (fun p => p.1 == k) = true
  · simp only [aset, hm, if_true]
    exact aget_map_update_of_ne m k q v h
  · have hk : ¬ k = q := fun hh => h hh.symm
    simp [aset, hm, aget_append, aget, hk]

theorem mem_aset {α : Type} {m : List (String × α)} {k : String} {v : α}
    {p : String × α} (h : p ∈ aset m k v) : p = (k, v) ∨ p ∈ m := by
  by_cases hm : m.any (fun q => q.1 == k) = true
  · simp only [aset, hm, if_true, List.mem_map] at h
    obtain ⟨q, hq, hfq⟩ := h
    by_cases hqk : q.1 = k
    · simp [hqk] at hfq
      exact Or.inl hfq.symm
    · simp [hqk] at hfq
      exact Or.inr (hfq ▸ hq)
  · simp only [Bool.not_eq_true] at hm
    simp only [aset, hm, Bool.false_eq_true, if_false, List.mem_append,
      List.mem_singleton] at h
    tauto

theorem aget_mem {α : Type} {m : List (String × α)} {k : String} {v : α}
    (h : aget m k = some v) : (k, v) ∈ m := by
  induction m with
  | nil => simp [aget] at h
  | cons p rest ih =>
    by_cases hp : p.1 = k
    · simp only [aget, hp, if_true, Option.some_inj] at h
      have heq : (k, v) = p := by
        obtain ⟨a, b⟩ := p
        simp only at hp h
        rw [← hp, ← h]
      rw [heq]
      exact List.mem_cons_self _ _
    · simp only [aget, hp, if_false] at h
      exact List.mem_cons_of_mem _ (ih h)

theorem aset_of_aget_none {α : Type} {m : List (String × α)} {k : String} (v : α)
    (h : aget m k = none) : aset m k v = m ++ [(k, v)] := by
  have := (aget_eq_none_iff m k).mp h
  simp [aset, this]

theorem mem_setInsert {l : List String} {x y : String} :
    y ∈ setInsert l x ↔ y ∈ l ∨ y = x := by
  by_cases h : x ∈ l
  · simp only [setInsert, h, if_true]
    constructor
    · exact Or.inl
    · rintro (hy | rfl)
      · exact hy
      · exact h
  · simp [setInsert, h]

theorem setInsert_nodup {l : List String} (x : String) (h : l.Nodup) :
    (setInsert l x).Nodup := by
  by_cases hx : x ∈ l <;> simp [setInsert, hx, List.nodup_append, h]

theorem mem_foldl_setInsert (l : List String) :
    ∀ (acc : List String) (y : String),
      y ∈ l.foldl setInsert acc ↔ y ∈ acc ∨ y ∈ l := by
  induction l with
  | nil => simp
  | cons a t ih =>
    intro acc y
    simp only [List.foldl_cons, ih, mem_setInsert, List.mem_cons]
    tauto

theorem foldl_setInsert_nodup (l : List String) :
    ∀ acc : List String, acc.Nodup → (l.foldl setInsert acc).Nodup := by
  induction l with
  | nil => exact fun acc h => h
  | cons a t ih => exact fun acc h => ih _ (setInsert_nodup a h)

theorem foldl_setInsert_of_nodup (l : List String) :
    ∀ acc : List String, (acc ++ l).Nodup → l.foldl setInsert acc = acc ++ l := by
  induction l with
  | nil => simp
  | cons a t ih =>
    intro acc h
    have hmem : a ∉ acc := by
      simp only [List.nodup_append, List.nodup_cons, List.disjoint_cons_right] at h
      exact fun hc => h.2.2.1 hc
    have hstep : setInsert acc a = acc ++ [a] := by simp [setInsert, hmem]
    have hre : acc ++ a :: t = (acc ++ [a]) ++ t := by simp
    rw [List.foldl_cons, hstep, ih (acc ++ [a]) (by rw [← hre]; exact h), hre]

theorem dedupFirst_nodup (l : List String) : (dedupFirst l).Nodup :=
  foldl_setInsert_nodup l [] List.nodup_nil

theorem mem_dedupFirst {l : List String} {y : String} :
    y ∈ dedupFirst l ↔ y ∈ l := by
  simp [dedupFirst, mem_foldl_setInsert]

theorem dedupFirst_eq_self {l : List String} (h : l.Nodup) : dedupFirst l = l := by
  have := foldl_setInsert_of_nodup l [] (by simpa using h)
  simpa [dedupFirst] using this

theorem setInsert_of_mem {l : List String} {x : String} (h : x ∈ l) :
    setInsert l x = l := by
  simp [setInsert, h]

theorem mem_setDelete {l : List String} {x y : String} :
    y ∈ setDelete l x ↔ y ∈ l ∧ y ≠ x := by
  simp [setDelete]

theorem mem_foldl_setDelete (rs : List String) :
    ∀ (l : List String) (y : String),
      y ∈ rs.foldl setDelete l ↔ y ∈ l ∧ y ∉ rs := by
  induction rs with
  | nil => simp
  | cons a t ih =>
    intro l y
    simp only [List.foldl_cons, ih, mem_setDelete, List.mem_cons]
    tauto

theorem foldl_setDelete_nil (rs : List String) :
    rs.foldl setDelete [] = [] := by
  induction rs with
  | nil => rfl
  | cons a t ih => simpa [setDelete] using ih

theorem mGet_ensureRow (m : List (String × List (String × Nat))) (a x y : String) :
    mGet (ensureRow m a) x y = mGet m x y := by
  unfold ensureRow
  cases h : aget m a with
  | some row => rfl
  | none =>
    by_cases hx : x = a
    · subst hx
      simp [mGet, aget_aset_self, h, aget]
    · simp [mGet, aget_aset_of_ne _ _ _ _ hx]

theorem mGet_incCell (m : List (String × List (String × Nat))) (a b x y : String) :
    mGet (incCell m a b) x y = mGet m x y + if x = a ∧ y = b then 1 else 0 := by
  by_cases hx : x = a
  · subst hx
    by_cases hy : y = b
    · subst hy
      simp [incCell, mGet, aget_aset_self]
    · simp [incCell, mGet, aget_aset_self, aget_aset_of_ne _ _ _ _ hy, hy]
  · simp [incCell, mGet, aget_aset_of_ne _ _ _ _ hx, hx]

theorem mGet_bumpPair (m : List (String × List (String × Nat))) (a b x y : String) :
    mGet (bumpPair m a b) x y =
      mGet m x y + (if x = a ∧ y = b then 1 else 0) + (if x = b ∧ y = a then 1 else 0) := by
  simp [bumpPair, mGet_incCell, mGet_ensureRow]

theorem mGet_foldl_bump (rest : List String) (a : String) :
    ∀ (m : List (String × List (String × Nat))) (x y : String),
      mGet (rest.foldl (fun acc b => bumpPair acc a b) m) x y
        = mGet m x y + (if x = a then rest.count y else 0)
            + (if y = a then rest.count x else 0) := by
  induction rest with
  | nil => simp
  | cons b t ih =>
    intro m x y
    rw [List.foldl_cons, ih, mGet_bumpPair]
    by_cases hxa : x = a <;> by_cases hya : y = a <;> by_cases hxb : x = b <;>
      by_cases hyb : y = b <;> simp_all [List.count_cons] <;> omega

theorem mGet_coRow (cs : List String) :
    ∀ (m : List (String × List (String × Nat))) (x y : String), x ≠ y → cs.Nodup →
      mGet (coRow m cs) x y = mGet m x y + (if x ∈ cs ∧ y ∈ cs then 1 else 0) := by
  induction cs with
  | nil => intro m x y _ _; simp [coRow]
  | cons a rest ih =>
    intro m x y hxy hnd
    have hna : a ∉ rest := (List.nodup_cons.mp hnd).1
    have hrest : rest.Nodup := (List.nodup_cons.mp hnd).2
    have hcy : rest.count y = if y ∈ rest then 1 else 0 := by
      by_cases h : y ∈ rest
      · simp [h, List.count_eq_one_of_mem hrest h]
      · simp [h, List.count_eq_zero_of_not_mem h]
    have hcx : rest.count x = if x ∈ rest then 1 else 0 := by
      by_cases h : x ∈ rest
      · simp [h, List.count_eq_one_of_mem hrest h]
      · simp [h, List.count_eq_zero_of_not_mem h]
    simp only [coRow]
    rw [ih _ x y hxy hrest, mGet_foldl_bump, hcy, hcx]
    by_cases hxa : x = a <;> by_cases hya : y = a <;> by_cases hxr : x ∈ rest <;>
      by_cases hyr : y ∈ rest <;> simp_all

theorem mGet_foldl_coRow (rows : List (String × List String)) :
    ∀ (m : List (String × List (String × Nat))) (x y : String), x ≠ y →
      (∀ p ∈ rows, p.2.Nodup) →
      mGet (rows.foldl (fun acc p => coRow acc p.2) m) x y
        = mGet m x y + rows.countP (fun p => decide (x ∈ p.2 ∧ y ∈ p.2)) := by
  induction rows with
  | nil => simp
  | cons r t ih =>
    intro m x y hxy hnd
    rw [List.foldl_cons, ih _ x y hxy (fun p hp => hnd p (List.mem_cons_of_mem _ hp)),
      mGet_coRow _ _ x y hxy (hnd r (List.mem_cons_self _ _)), List.countP_cons]
    by_cases h : x ∈ r.2 ∧ y ∈ r.2
    · simp [h]
      omega
    · simp [h]

theorem abrStep_values_nodup {res : List (String × List String)} {cid rid : String}
    (h : ∀ p ∈ res, p.2.Nodup) : ∀ p ∈ abrStep res cid rid, p.2.Nodup := by
  intro p hp
  unfold abrStep at hp
  split at hp
  · rcases mem_aset hp with rfl | hmem
    · simp
    · exact h _ hmem
  · rename_i cs hres
    split at hp
    · exact h _ hp
    · rename_i hc
      rcases mem_aset hp with rfl | hmem
      · have hcs : cs.Nodup := h _ (aget_mem hres)
        simp [List.nodup_append, hcs, hc]
      · exact h _ hmem

theorem foldl_abrStep_values_nodup (rows : List String) (cid : String) :
    ∀ res : List (String × List String), (∀ p ∈ res, p.2.Nodup) →
      ∀ p ∈ rows.foldl (fun r rid => abrStep r cid rid) res, p.2.Nodup := by
  induction rows with
  | nil => intro res h; exact h
  | cons a t ih => intro res h; exact ih _ (abrStep_values_nodup h)

theorem assignmentsByRow_values_nodup (asg : List (String × List String)) :
    ∀ p ∈ assignmentsByRow asg, p.2.Nodup := by
  have main : ∀ (l : List (String × List String)) (res : List (String × List String)),
      (∀ p ∈ res, p.2.Nodup) →
      ∀ p ∈ l.foldl (fun result q => q.2.foldl (fun r rid => abrStep r q.1 rid) result) res,
        p.2.Nodup := by
    intro l
    induction l with
    | nil => intro res h; exact h
    | cons q t ih => intro res h; exact ih _ (foldl_abrStep_values_nodup q.2 q.1 res h)
  exact main asg [] (by simp)

/-- C1: for every assignments table and every pair of distinct code
identifiers `a ≠ b`, the derived co-occurrence matrix stores at `[a][b]`
exactly the number of rows (entries of the derived row index) whose
assigned code set contains both `a` and `b`, and it is symmetric:
`cooccurrence[a][b] = cooccurrence[b][a]`. -/
theorem claim_C1_cooccurrence (asg : List (String × List String)) (a b : String)
    (hab : a ≠ b) :
    mGet (cooccurrence (assignmentsByRow asg)) a b
        = (assignmentsByRow asg).countP (fun p => decide (a ∈ p.2 ∧ b ∈ p.2))
      ∧ mGet (cooccurrence (assignmentsByRow asg)) a b
        = mGet (cooccurrence (assignmentsByRow asg)) b a := by
  have hnd := assignmentsByRow_values_nodup asg
  have h1 := mGet_foldl_coRow (assignmentsByRow asg) [] a b hab hnd
  have h2 := mGet_foldl_coRow (assignmentsByRow asg) [] b a (Ne.symm hab) hnd
  have hz : ∀ x y : String, mGet [] x y = 0 := by intro x y; simp [mGet, aget]
  have hcount : (assignmentsByRow asg).countP (fun p => decide (b ∈ p.2 ∧ a ∈ p.2))
      = (assignmentsByRow asg).countP (fun p => decide (a ∈ p.2 ∧ b ∈ p.2)) := by
    refine List.countP_congr ?_
    intro p _
    simp [and_comm]
  constructor
  · simp only [cooccurrence]
    rw [h1, hz]
    omega
  · simp only [cooccurrence]
    rw [h1, h2, hz, hz, hcount]

/-- Concrete instance of C1: two codes sharing row 1, with `A` also on
row 2. -/
theorem claim_C1_witness :
    ("A" : String) ≠ "B"
      ∧ (mGet (cooccurrence (assignmentsByRow [("A", ["1", "2"]), ("B", ["1"])])) "A" "B"
            = (assignmentsByRow [("A", ["1", "2"]), ("B", ["1"])]).countP
                (fun p => decide ("A" ∈ p.2 ∧ "B" ∈ p.2))
          ∧ mGet (cooccurrence (assignmentsByRow [("A", ["1", "2"]), ("B", ["1"])])) "A" "B"
            = mGet (cooccurrence (assignmentsByRow [("A", ["1", "2"]), ("B", ["1"])])) "B" "A") :=
  ⟨by decide, claim_C1_cooccurrence [("A", ["1", "2"]), ("B", ["1"])] "A" "B" (by decide)⟩

/-- C2: every entry of the derived `codesWithFrequency` list is the stored
code at the same position with only its `frequency` field replaced by the
size of that code's assignment set (empty when the code has no entry); in
particular the reported frequency equals the assignment count of the
entry's own id. -/
theorem claim_C2_codesWithFrequency (codes : List Code) (asg : List (String × List String))
    (i : Nat) (h1 : i < codes.length) (h2 : i < (codesWithFrequency codes asg).length) :
    (codesWithFrequency codes asg)[i]
        = { codes[i] with frequency := ((aget asg codes[i].id).getD []).length }
      ∧ ((codesWithFrequency codes asg)[i]).frequency
        = ((aget asg ((codesWithFrequency codes asg)[i]).id).getD []).length := by
  have hmap : (codesWithFrequency codes asg)[i]
      = { codes[i] with frequency := ((aget asg codes[i].id).getD []).length } := by
    simp [codesWithFrequency]
  refine ⟨hmap, ?_⟩
  rw [hmap]

/-- Concrete instance of C2: a single code whose stale stored frequency 7
is overwritten by the live count 1. -/
theorem claim_C2_witness :
    0 < [{ id := "code-1", name := "X", description := "", color := "#fff",
           parentId := none, level := 1, createdAt := 0, createdBy := none,
           frequency := 7, antActorType := none : Code }].length
      ∧ 0 < (codesWithFrequency
              [{ id := "code-1", name := "X", description := "", color := "#fff",
                 parentId := none, level := 1, createdAt := 0, createdBy := none,
                 frequency := 7, antActorType := none : Code }]
              [("code-1", ["0"])]).length
      ∧ ((codesWithFrequency
            [{ id := "code-1", name := "X", description := "", color := "#fff",
               parentId := none, level := 1, createdAt := 0, createdBy := none,
               frequency := 7, antActorType := none : Code }]
            [("code-1", ["0"])]).get ⟨0, by decide⟩
          = { ([{ id := "code-1", name := "X", description := "", color := "#fff",
                  parentId := none, level := 1, createdAt := 0, createdBy := none,
                  frequency := 7, antActorType := none : Code }].get ⟨0, by decide⟩) with
              frequency := ((aget [("code-1", ["0"])]
                  (([{ id := "code-1", name := "X", description := "", color := "#fff",
                       parentId := none, level := 1, createdAt := 0, createdBy := none,
                       frequency := 7, antActorType := none : Code }].get
                    ⟨0, by decide⟩)).id).getD []).length }
          ∧ (((codesWithFrequency
                [{ id := "code-1", name := "X", description := "", color := "#fff",
                   parentId := none, level := 1, createdAt := 0, createdBy := none,
                   frequency := 7, antActorType := none : Code }]
                [("code-1", ["0"])]).get ⟨0, by decide⟩)).frequency
            = ((aget [("code-1", ["0"])]
                  ((((codesWithFrequency
                      [{ id := "code-1", name := "X", description := "", color := "#fff",
                         parentId := none, level := 1, createdAt := 0, createdBy := none,
                         frequency := 7, antActorType := none : Code }]
                      [("code-1", ["0"])]).get ⟨0, by decide⟩)).id)).getD []).length) :=
  ⟨by decide, by decide,
    claim_C2_codesWithFrequency
      [{ id := "code-1", name := "X", description := "", color := "#fff",
         parentId := none, level := 1, createdAt := 0, createdBy := none,
         frequency := 7, antActorType := none : Code }]
      [("code-1", ["0"])] 0 (by decide) (by decide)⟩

/-- C3: the derived saturation's `recentNewCodes` counts the `create`
events among the last 50 audit-log entries (the whole log when shorter),
and the trend is "Approaching saturation" exactly when that count is at
most 2 and "Exploring" exactly when it exceeds 2; in particular a count of
3 yields "Exploring" and a count of 2 yields "Approaching saturation". -/
theorem claim_C3_saturation (codes : List Code) (events : List CodingEvent) :
    (saturation codes events).recentNewCodes
        = (events.drop (events.length - 50)).countP
            (fun e => e.action == EventAction.create)
      ∧ ((saturation codes events).trend = "Approaching saturation"
          ↔ (saturation codes events).recentNewCodes ≤ 2)
      ∧ ((saturation codes events).trend = "Exploring"
          ↔ 2 < (saturation codes events).recentNewCodes)
      ∧ ((saturation codes events).recentNewCodes = 3
          → (saturation codes events).trend = "Exploring")
      ∧ ((saturation codes events).recentNewCodes = 2
          → (saturation codes events).trend = "Approaching saturation") := by
  have hne : ("Exploring" : String) ≠ "Approaching saturation" := by decide
  have hrec : (saturation codes events).recentNewCodes
      = (events.drop (events.length - 50)).countP
          (fun e => e.action == EventAction.create) := by
    simp [saturation, List.countP_eq_length_filter]
  refine ⟨hrec, ?_, ?_, ?_, ?_⟩ <;>
    · simp only [saturation]
      by_cases h :
          ((events.drop (events.length - 50)).filter
            (fun e => e.action == EventAction.create)).length ≤ 2 <;>
        simp [h, hne, Ne.symm hne] <;> omega

/-- Concrete instance of C3: an empty log has zero recent creates and is
"Approaching saturation". -/
theorem claim_C3_witness :
    (saturation [] []).recentNewCodes
        = (([] : List CodingEvent).drop (([] : List CodingEvent).length - 50)).countP
            (fun e => e.action == EventAction.create)
      ∧ ((saturation [] []).trend = "Approaching saturation"
          ↔ (saturation [] []).recentNewCodes ≤ 2)
      ∧ ((saturation [] []).trend = "Exploring"
          ↔ 2 < (saturation [] []).recentNewCodes)
      ∧ ((saturation [] []).recentNewCodes = 3
          → (saturation [] []).trend = "Exploring")
      ∧ ((saturation [] []).recentNewCodes = 2
          → (saturation [] []).trend = "Approaching saturation") :=
  claim_C3_saturation [] []

/-- C5: applying the same `(codeId, rowId)` pair twice leaves every code's
assignment set exactly as after one application, and the row appears at
most once in the code's assignment set. -/
theorem claim_C5_applyCode_idempotent (s : StoreState) (n1 n2 : Nat) (c r : String) :
    (∀ d : String,
        aget ((applyCode (applyCode s n1 c [r]) n2 c [r]).assignments) d
          = aget ((applyCode s n1 c [r]).assignments) d)
      ∧ ((aget ((applyCode s n1 c [r]).assignments) c).getD []).count r ≤ 1 := by
  have ha1 : (applyCode s n1 c [r]).assignments
      = aset s.assignments c (setInsert (dedupFirst ((aget s.assignments c).getD [])) r) := by
    simp [applyCode]
  have hu1nd : (setInsert (dedupFirst ((aget s.assignments c).getD [])) r).Nodup :=
    setInsert_nodup r (dedupFirst_nodup _)
  have hget1 : aget ((applyCode s n1 c [r]).assignments) c
      = some (setInsert (dedupFirst ((aget s.assignments c).getD [])) r) := by
    rw [ha1]
    exact aget_aset_self _ _ _
  have hrmem : r ∈ setInsert (dedupFirst ((aget s.assignments c).getD [])) r :=
    mem_setInsert.mpr (Or.inr rfl)
  have ha2 : (applyCode (applyCode s n1 c [r]) n2 c [r]).assignments
      = aset ((applyCode s n1 c [r]).assignments) c
          (setInsert
            (dedupFirst ((aget ((applyCode s n1 c [r]).assignments) c).getD [])) r) := by
    simp [applyCode]
  constructor
  · intro d
    by_cases hd : d = c
    · subst hd
      rw [ha2, aget_aset_self, hget1, Option.getD_some, dedupFirst_eq_self hu1nd]
      rw [setInsert_of_mem hrmem]
    · rw [ha2, aget_aset_of_ne _ _ _ _ hd]
  · rw [hget1, Option.getD_some]
    exact List.nodup_iff_count_le_one.mp hu1nd r

/-- C6: a non-empty `removeCode` call replaces the code's assignment set
by its set difference with the requested rows (absent rows are tolerated)
and appends exactly one `remove` event carrying the full requested row
list. -/
theorem claim_C6_removeCode (s : StoreState) (now : Nat) (c : String) (rs : List String)
    (h : rs ≠ []) :
    (∀ x : String,
        x ∈ ((aget ((removeCode s now c rs).assignments) c).getD [])
          ↔ x ∈ ((aget s.assignments c).getD []) ∧ x ∉ rs)
      ∧ (removeCode s now c rs).codingEvents
        = s.codingEvents
            ++ [{ timestamp := now, action := EventAction.remove, codeId := c,
                  dataPointIds := rs, coder := none, notes := none }] := by
  have hlen : ¬ rs.length = 0 := by simpa using h
  have hasg : (removeCode s now c rs).assignments
      = aset s.assignments c
          (rs.foldl setDelete (dedupFirst ((aget s.assignments c).getD []))) := by
    simp [removeCode, hlen]
  have hev : (removeCode s now c rs).codingEvents
      = s.codingEvents
          ++ [{ timestamp := now, action := EventAction.remove, codeId := c,
                dataPointIds := rs, coder := none, notes := none }] := by
    simp [removeCode, hlen, logEvent]
  refine ⟨?_, hev⟩
  intro x
  rw [hasg, aget_aset_self, Option.getD_some, mem_foldl_setDelete, mem_dedupFirst]

/-- A store holding one assignment entry, used to instantiate C6. -/
def stateC6 : StoreState :=
  { emptyStore with assignments := [("A", ["1", "2"])] }

/-- Concrete instance of C6: removing row 1 from code A of `stateC6`. -/
theorem claim_C6_witness :
    (["1"] : List String) ≠ []
      ∧ ((∀ x : String,
            x ∈ ((aget ((removeCode stateC6 0 "A" ["1"]).assignments) "A").getD [])
              ↔ x ∈ ((aget stateC6.assignments "A").getD []) ∧ x ∉ (["1"] : List String))
          ∧ (removeCode stateC6 0 "A" ["1"]).codingEvents
            = stateC6.codingEvents
                ++ [{ timestamp := 0, action := EventAction.remove, codeId := "A",
                      dataPointIds := ["1"], coder := none, notes := none }]) :=
  ⟨by decide, claim_C6_removeCode stateC6 0 "A" ["1"] (by decide)⟩

/-- C7: `applyCode` and `removeCode` with an empty row list leave the
whole store state unchanged (no registry touched, no event logged). -/
theorem claim_C7_empty_noop (s : StoreState) (now : Nat) (c : String) :
    applyCode s now c [] = s ∧ removeCode s now c [] = s := by
  constructor <;> simp [applyCode, removeCode]

/-- C8: `createCode` is total, defaults `name` to "New Code" and `level`
to 1 when absent, defaults `color` to the palette entry at index
(current registry size mod palette length) when absent, appends the new
code at the end of the code registry, and appends exactly one `create`
event with empty `dataPointIds`. -/
theorem claim_C8_createCode (s : StoreState) (now : Nat) (newId : String) (d : CodeDraft) :
    (d.name = none → (createCode s now newId d).1.name = "New Code")
      ∧ (d.level = none → (createCode s now newId d).1.level = 1)
      ∧ (d.color = none →
          (createCode s now newId d).1.color
            = palette.get ⟨s.codes.length % palette.length, Nat.mod_lt _ (by decide)⟩)
      ∧ ((createCode s now newId d).2).codes = s.codes ++ [(createCode s now newId d).1]
      ∧ ((createCode s now newId d).2).codingEvents
        = s.codingEvents
            ++ [{ timestamp := now, action := EventAction.create,
                  codeId := (createCode s now newId d).1.id, dataPointIds := [],
                  coder := none, notes := none }] := by
  refine ⟨?_, ?_, ?_, ?_, ?_⟩
  · intro h
    simp [createCode, h]
  · intro h
    simp [createCode, h]
  · intro h
    simp [createCode, h, toColor]
  · simp [createCode]
  · simp [createCode, logEvent]

/-- Concrete instance of C8: creating a code from an empty draft on the
empty store. -/
theorem claim_C8_witness :
    (emptyDraft.name = none → (createCode emptyStore 0 "code-1" emptyDraft).1.name = "New Code")
      ∧ (emptyDraft.level = none → (createCode emptyStore 0 "code-1" emptyDraft).1.level = 1)
      ∧ (emptyDraft.color = none →
          (createCode emptyStore 0 "code-1" emptyDraft).1.color
            = palette.get
                ⟨emptyStore.codes.length % palette.length, Nat.mod_lt _ (by decide)⟩)
      ∧ ((createCode emptyStore 0 "code-1" emptyDraft).2).codes
        = emptyStore.codes ++ [(createCode emptyStore 0 "code-1" emptyDraft).1]
      ∧ ((createCode emptyStore 0 "code-1" emptyDraft).2).codingEvents
        = emptyStore.codingEvents
            ++ [{ timestamp := 0, action := EventAction.create,
                  codeId := (createCode emptyStore 0 "code-1" emptyDraft).1.id,
                  dataPointIds := [], coder := none, notes := none }] :=
  claim_C8_createCode emptyStore 0 "code-1" emptyDraft

/-- C9: every mutation of the façade leaves the audit log as the old log
with zero or one events appended at the end; no existing entry is
modified, reordered or removed. -/
theorem claim_C9_audit_append_only (s : StoreState) (now : Nat) (newId c : String)
    (cd : CodeDraft) (rs : List String) (md : MemoDraft) (rd : RelationDraft)
    (ad : ActorDraft) (ld : ActorLinkDraft) :
    (∃ t, ((createCode s now newId cd).2).codingEvents = s.codingEvents ++ t ∧ t.length ≤ 1)
      ∧ (∃ t, (applyCode s now c rs).codingEvents = s.codingEvents ++ t ∧ t.length ≤ 1)
      ∧ (∃ t, (removeCode s now c rs).codingEvents = s.codingEvents ++ t ∧ t.length ≤ 1)
      ∧ (∃ t, ((createMemo s now newId md).2).codingEvents = s.codingEvents ++ t ∧ t.length ≤ 1)
      ∧ (∃ t, ((createRelation s newId rd).2).codingEvents = s.codingEvents ++ t ∧ t.length ≤ 1)
      ∧ (∃ t, ((addActor s newId ad).2).codingEvents = s.codingEvents ++ t ∧ t.length ≤ 1)
      ∧ (∃ t, ((addActorLink s newId ld).2).codingEvents
            = s.codingEvents ++ t ∧ t.length ≤ 1) := by
  refine ⟨?_, ?_, ?_, ?_, ?_, ?_, ?_⟩
  · exact ⟨[{ timestamp := now, action := EventAction.create, codeId := newId,
              dataPointIds := [], coder := none, notes := none }],
      by simp [createCode, logEvent], by simp⟩
  · by_cases h : rs.length = 0
    · exact ⟨[], by simp [applyCode, h], by simp⟩
    · exact ⟨[{ timestamp := now, action := EventAction.apply, codeId := c,
                dataPointIds := rs, coder := none, notes := none }],
        by simp [applyCode, h, logEvent], by simp⟩
  · by_cases h : rs.length = 0
    · exact ⟨[], by simp [removeCode, h], by simp⟩
    · exact ⟨[{ timestamp := now, action := EventAction.remove, codeId := c,
                dataPointIds := rs, coder := none, notes := none }],
        by simp [removeCode, h, logEvent], by simp⟩
  · exact ⟨[], by simp [createMemo], by simp⟩
  · exact ⟨[], by simp [createRelation], by simp⟩
  · exact ⟨[], by simp [addActor], by simp⟩
  · exact ⟨[], by simp [addActorLink], by simp⟩

/-- C10: a non-empty `removeCode` on a code with no assignment entry
creates the entry, mapping the code to the empty list; the derived row
index and frequencies are unchanged, but the table's key list grows by
that code. -/
theorem claim_C10_removeCode_creates_key (s : StoreState) (now : Nat) (c : String)
    (rs : List String) (codes : List Code) (h1 : aget s.assignments c = none)
    (h2 : rs ≠ []) :
    aget ((removeCode s now c rs).assignments) c = some []
      ∧ assignmentsByRow ((removeCode s now c rs).assignments)
        = assignmentsByRow s.assignments
      ∧ codesWithFrequency codes ((removeCode s now c rs).assignments)
        = codesWithFrequency codes s.assignments
      ∧ ((removeCode s now c rs).assignments).map Prod.fst
        = s.assignments.map Prod.fst ++ [c] := by
  have hlen : ¬ rs.length = 0 := by simpa using h2
  have hupd : rs.foldl setDelete (dedupFirst ((aget s.assignments c).getD [])) = [] := by
    rw [h1]
    simpa [dedupFirst] using foldl_setDelete_nil rs
  have hasg : (removeCode s now c rs).assignments = s.assignments ++ [(c, [])] := by
    simp only [removeCode, hlen, if_false, hupd]
    exact aset_of_aget_none [] h1
  have hfreq : ∀ k : String,
      ((aget (s.assignments ++ [(c, [])]) k).getD []).length
        = ((aget s.assignments k).getD []).length := by
    intro k
    rw [aget_append]
    cases hk : aget s.assignments k with
    | some v => rfl
    | none => by_cases hck : c = k <;> simp [aget, hck]
  refine ⟨?_, ?_, ?_, ?_⟩
  · rw [hasg, aget_append, h1]
    simp [aget]
  · rw [hasg]
    simp [assignmentsByRow, List.foldl_append]
  · rw [hasg]
    simp only [codesWithFrequency]
    exact List.map_congr_left (fun code _ => by rw [hfreq code.id])
  · rw [hasg]
    simp

/-- Concrete instance of C10: removing a row of the unknown code A from
the empty store creates an empty entry for A. -/
theorem claim_C10_witness :
    aget emptyStore.assignments "A" = none
      ∧ (["1"] : List String) ≠ []
      ∧ (aget ((removeCode emptyStore 0 "A" ["1"]).assignments) "A" = some []
          ∧ assignmentsByRow ((removeCode emptyStore 0 "A" ["1"]).assignments)
            = assignmentsByRow emptyStore.assignments
          ∧ codesWithFrequency [] ((removeCode emptyStore 0 "A" ["1"]).assignments)
            = codesWithFrequency [] emptyStore.assignments
          ∧ ((removeCode emptyStore 0 "A" ["1"]).assignments).map Prod.fst
            = emptyStore.assignments.map Prod.fst ++ ["A"]) :=
  ⟨by decide, by decide,
    claim_C10_removeCode_creates_key emptyStore 0 "A" ["1"] [] (by decide) (by decide)⟩

/-- The store of the C4 export scenario: one code (`code-1`, name X,
colour #fff, level 1, no parent), no memos, and one assignment of
`code-1` to row "0". -/
def stateC4 : StoreState :=
  { emptyStore with
    codes := [{ id := "code-1", name := "X", description := "", color := "#fff",
                parentId := none, level := 1, createdAt := 0, createdBy := none,
                frequency := 0, antActorType := none }],
    assignments := [("code-1", ["0"])] }

set_option maxRecDepth 8192 in
/-- C4 as stated is false: the export of the scenario store is not the
bare `<Project>` document, because `exportRefiQda` always prepends the
XML declaration. -/
theorem claim_C4_counterexample :
    exportRefiQda stateC4
      ≠ "<Project><Code id=\"code-1\" name=\"X\" color=\"#fff\" level=\"1\" parentId=\"\"></Code><Coding codeId=\"code-1\" dataPointId=\"0\"></Coding></Project>" := by
  decide

set_option maxRecDepth 8192 in
/-- C4 amended: on the scenario store, `exportRefiQda` returns exactly
the claimed `<Project>` document prefixed by the XML declaration
`<?xml version="1.0" encoding="UTF-8"?>` (no escaping is needed for these
attribute values, and none is applied). -/
theorem claim_C4_exportRefiQda :
    exportRefiQda stateC4
      = "<?xml version=\"1.0\" encoding=\"UTF-8\"?><Project><Code id=\"code-1\" name=\"X\" color=\"#fff\" level=\"1\" parentId=\"\"></Code><Coding codeId=\"code-1\" dataPointId=\"0\"></Coding></Project>" := by
  decide

end QualStore
